import Mathlib

/-!
Verification of the Handshake file-transfer protocol (server.cpp / client.cpp).

The development shallowly embeds the protocol core of the two C++ programs:
bytes are natural numbers below 256, a channel direction is a list of bytes,
and each endpoint is a function from its input stream to the bytes it emits
together with an explicit success or error outcome.  Machine-integer casts
(the uint32 cast in send_str, the uint64 file size) appear as explicit
modular arithmetic on Nat.  The recv system call is additionally modelled
at per-call granularity by `recv_exact` over a schedule of call results.
-/

/-- Bytes are modelled as natural numbers; wire bytes produced by the
encoders are always below 256. -/
abbrev Byte := Nat

/-- Byte value of the ASCII character 1, the continuation-marker flag the
server writes before every payload chunk (server.cpp line 215). -/
def M1 : Byte := 49

/-- Byte value of the ASCII character 0, used twice as the termination
sentinel (server.cpp lines 222-224). -/
def M0 : Byte := 48

/-- Fixed maximum chunk payload size, `constexpr size_t CHUNK = 100` in both
server.cpp and client.cpp. -/
def CHUNK : Nat := 100

/-- Outcomes on which either endpoint aborts the session: `peerClosed`
models `recv` returning 0 (the message "closed early" followed by exit),
`protocolError` models the fixed "[client] protocol error" report of
client.cpp lines 177-180.  Neither constructor carries any further data,
because the corresponding reports in the source carry none. -/
inductive SessionError : Type
  | peerClosed
  | protocolError
deriving DecidableEq, Repr

/-- Byte-stream-level view of `recv_exact` (client.cpp lines 69-77,
server.cpp lines 76-84): under the all-or-nothing abstraction those loops
provide, reading `len` bytes either consumes exactly the first `len` bytes
of the input or fails with the peer-closed condition when the stream is
too short. -/
def recvBytes (len : Nat) (input : List Byte) :
    Except SessionError (List Byte × List Byte) :=
  if len ≤ input.length then .ok (input.take len, input.drop len)
  else .error .peerClosed

/-- Big-endian bytes of a 32-bit length header: `htonl(uint32_t(n))`.  The
`% 256` on every byte realises the truncating `static_cast<uint32_t>`. -/
def encodeU32 (n : Nat) : List Byte :=
  [n / 2 ^ 24 % 256, n / 2 ^ 16 % 256, n / 2 ^ 8 % 256, n % 256]

/-- Big-endian decoding of a byte list, as `ntohl` applied to 4 received
bytes (client.cpp line 87, server.cpp line 94). -/
def decodeU32 (b : List Byte) : Nat :=
  b.foldl (fun acc x => acc * 256 + x) 0

/-- Big-endian bytes of the 64-bit file size, `host_to_be64(file_size)`
(server.cpp line 205). -/
def encodeU64 (n : Nat) : List Byte :=
  [n / 2 ^ 56 % 256, n / 2 ^ 48 % 256, n / 2 ^ 40 % 256, n / 2 ^ 32 % 256,
   n / 2 ^ 24 % 256, n / 2 ^ 16 % 256, n / 2 ^ 8 % 256, n % 256]

/-- Big-endian decoding of the 8 received size bytes, `be64_to_host`
(client.cpp line 157). -/
def decodeU64 (b : List Byte) : Nat :=
  b.foldl (fun acc x => acc * 256 + x) 0

/-- Bytes emitted by `send_str` (client.cpp lines 80-84, server.cpp lines
87-91): a 4-byte big-endian header holding the string length cast to
uint32, followed by the raw bytes of the string.  The source skips the
body write for an empty string, which emits the same bytes. -/
def send_str (s : List Byte) : List Byte :=
  encodeU32 s.length ++ s

/-- The `recv_str` framing decoder (client.cpp lines 86-91, server.cpp
lines 93-98): read 4 bytes, decode them big-endian as the length `n`, then
read `n` bytes and return them along with the unread remainder.  Each
failing read aborts, as the exiting `recv_exact` does in the source. -/
def recv_str (input : List Byte) :
    Except SessionError (List Byte × List Byte) :=
  match recvBytes 4 input with
  | .error e => .error e
  | .ok (hdr, r1) =>
      match recvBytes (decodeU32 hdr) r1 with
      | .error e => .error e
      | .ok (body, r2) => .ok (body, r2)

/-- Byte list of a string literal of the source, one Nat per character. -/
def strBytes (s : String) : List Byte :=
  s.toList.map Char.toNat

/-- The fixed second handshake string the client sends, "Query file name"
(client.cpp line 151), which the server receives and ignores. -/
def queryMsg : List Byte :=
  strBytes "Query file name"

/-- The fixed ready string the client sends, "Start" (client.cpp line
165), whose content the server receives and ignores. -/
def startMsg : List Byte :=
  strBytes "Start"

/-- The server chunk loop of server.cpp lines 212-220, started at a given
value of `sent`: while `sent < file_size`, emit the flag byte M1, then
`min CHUNK (file_size - sent)` bytes of the file starting at offset
`sent`, and advance `sent` by that amount. -/
def serverChunkLoop (file : List Byte) (sent : Nat) : List Byte :=
  if sent < file.length then
    M1 :: ((file.drop sent).take (min CHUNK (file.length - sent)) ++
      serverChunkLoop file (sent + min CHUNK (file.length - sent)))
  else []
termination_by file.length - sent
decreasing_by
  simp only [CHUNK]
  omega

/-- Everything the server writes during the streaming phase: the chunk
loop starting from `sent = 0`, followed by the two sentinel bytes M0 M0
(server.cpp lines 212-224). -/
def serverStream (file : List Byte) : List Byte :=
  serverChunkLoop file 0 ++ [M0, M0]

/-- View of the server chunk loop as the list of payload chunks it emits,
one list entry per iteration of the loop of server.cpp lines 214-220, in
emission order.  The link to the flat byte stream is proved below in
`serverChunkLoop_eq_markedStream`. -/
def serverChunks (file : List Byte) (sent : Nat) : List (List Byte) :=
  if sent < file.length then
    (file.drop sent).take (min CHUNK (file.length - sent)) ::
      serverChunks file (sent + min CHUNK (file.length - sent))
  else []
termination_by file.length - sent
decreasing_by
  simp only [CHUNK]
  omega

/-- Flattening of a chunk list back to wire bytes: each chunk is preceded
by the continuation marker M1. -/
def markedStream : List (List Byte) → List Byte
  | [] => []
  | c :: cs => M1 :: (c ++ markedStream cs)

/-- The client receive loop of client.cpp lines 168-185, parameterised by
the `file_size` learned from the metadata and the running total `recvd`.
Each iteration reads one flag byte: on M0 it reads one further byte and
stops successfully, returning the bytes delivered so far and the unread
remainder of the stream; on M1 it reads `want = min CHUNK (file_size -
recvd)` payload bytes, delivers them, and continues; on any other flag it
fails with the protocol-error report. -/
def clientRecvLoop (fileSize recvd : Nat) :
    List Byte → Except SessionError (List Byte × List Byte)
  | [] => .error .peerClosed
  | flag :: rest =>
      if flag = M0 then
        match recvBytes 1 rest with
        | .error e => .error e
        | .ok (_second, r2) => .ok ([], r2)
      else if flag = M1 then
        if min CHUNK (fileSize - recvd) ≤ rest.length then
          match clientRecvLoop fileSize (recvd + min CHUNK (fileSize - recvd))
              (rest.drop (min CHUNK (fileSize - recvd))) with
          | .ok (tail, leftover) =>
              .ok (rest.take (min CHUNK (fileSize - recvd)) ++ tail, leftover)
          | .error e => .error e
        else .error .peerClosed
      else .error .protocolError
termination_by input => input.length
decreasing_by
  simp only [List.length_drop, List.length_cons]
  omega

/-- One session on the server side (server.cpp lines 197-224), as a
function of the byte stream arriving from the client: receive the client
name, the query string, and the start string, in that order, interpreting
none of them; the bytes the server emits are the metadata frames (its own
name, the file path, the 8-byte big-endian size) followed by the chunk
stream, and do not depend on any received content. -/
def serverSession (server_name file_path file : List Byte)
    (input : List Byte) :
    Except SessionError ((List Byte × List Byte × List Byte) × List Byte) :=
  match recv_str input with
  | .error e => .error e
  | .ok (client_name, r1) =>
      match recv_str r1 with
      | .error e => .error e
      | .ok (query, r2) =>
          match recv_str r2 with
          | .error e => .error e
          | .ok (start, _r3) =>
              .ok ((client_name, query, start),
                send_str server_name ++ send_str file_path ++
                  encodeU64 file.length ++ serverStream file)

/-- One session on the client side (client.cpp lines 149-185), as a
function of the byte stream arriving from the server.  The first component
is what the client writes: its name and the query frame up front, and the
start frame once the metadata has been parsed.  The second component is
the outcome: the parsed server name, file name, file size, and the
received payload. -/
def clientSession (name : List Byte) (input : List Byte) :
    List Byte × Except SessionError (List Byte × List Byte × Nat × List Byte) :=
  match recv_str input with
  | .error e => (send_str name ++ send_str queryMsg, .error e)
  | .ok (server_name, r1) =>
      match recv_str r1 with
      | .error e => (send_str name ++ send_str queryMsg, .error e)
      | .ok (file_name, r2) =>
          match recvBytes 8 r2 with
          | .error e => (send_str name ++ send_str queryMsg, .error e)
          | .ok (szBytes, r3) =>
              match clientRecvLoop (decodeU64 szBytes) 0 r3 with
              | .error e =>
                  (send_str name ++ send_str queryMsg ++ send_str startMsg,
                    .error e)
              | .ok (payload, _) =>
                  (send_str name ++ send_str queryMsg ++ send_str startMsg,
                    .ok (server_name, file_name, decodeU64 szBytes, payload))

/-- One result of a single recv system call inside the recv_exact loop
(client.cpp lines 69-77, server.cpp lines 76-84): either the kernel has
`avail + 1` bytes of data ready, so recv returns `min (avail + 1)
requested` of them; or recv returns 0 at end of stream; or it fails with
errno EINTR; or it fails with some other errno value `e`. -/
inductive RecvEvent : Type
  | ok (avail : Nat)
  | eof
  | eintr
  | fail (e : Nat)
deriving DecidableEq, Repr

/-- Outcome of the recv_exact loop: all requested bytes read (with the
unconsumed remainder of the schedule), the peer-closed abort, the fatal
abort through `die` carrying the errno value, or blocking forever because
the schedule ran out of call results. -/
inductive RecvResult : Type
  | done (got : Nat) (rest : List RecvEvent)
  | peerClosed
  | fatal (e : Nat)
  | blocked
deriving DecidableEq, Repr

/-- The `recv_exact` loop (client.cpp lines 69-77, server.cpp lines
76-84) over a schedule of system-call results: while bytes remain to be
read, issue one recv; on data, advance by the returned count; on a 0
return, abort with the peer-closed report; on EINTR, retry without
advancing; on any other error, abort fatally at once via `die`. -/
def recv_exact : Nat → List RecvEvent → RecvResult
  | 0, evs => .done 0 evs
  | _ + 1, [] => .blocked
  | len + 1, .ok avail :: evs =>
      match recv_exact (len + 1 - min (avail + 1) (len + 1)) evs with
      | .done got rest => .done (min (avail + 1) (len + 1) + got) rest
      | r => r
  | _ + 1, .eof :: _ => .peerClosed
  | len + 1, .eintr :: evs => recv_exact (len + 1) evs
  | _ + 1, .fail e :: _ => .fatal e

/-- Reading a byte count that is exactly the length of a stream prefix
consumes that prefix and leaves the remainder. -/
theorem recvBytes_exact (pre post : List Byte) (n : Nat)
    (h : pre.length = n) :
    recvBytes n (pre ++ post) = .ok (pre, post) := by
  rw [recvBytes, if_pos (by rw [List.length_append, h]; omega)]
  rw [List.take_left' h, List.drop_left' h]

/-- Decoding the 4 header bytes recovers the length modulo 2 to the 32,
exactly the value the uint32 cast preserved. -/
theorem decodeU32_encodeU32 (n : Nat) :
    decodeU32 (encodeU32 n) = n % 2 ^ 32 := by
  simp only [decodeU32, encodeU32, List.foldl_cons, List.foldl_nil]
  omega

/-- Decoding the 8 size bytes recovers the size modulo 2 to the 64. -/
theorem decodeU64_encodeU64 (n : Nat) :
    decodeU64 (encodeU64 n) = n % 2 ^ 64 := by
  simp only [decodeU64, encodeU64, List.foldl_cons, List.foldl_nil]
  omega

/-- Frame round-trip: a frame for a string shorter than 2 to the 32,
followed by any continuation of the stream, decodes back to that string
and leaves the continuation unread. -/
theorem recv_str_send_str (s rest : List Byte) (h : s.length < 2 ^ 32) :
    recv_str (send_str s ++ rest) = .ok (s, rest) := by
  have h4 : (encodeU32 s.length).length = 4 := rfl
  rw [recv_str, send_str, List.append_assoc]
  rw [recvBytes_exact _ _ 4 h4]
  dsimp only
  have hd : decodeU32 (encodeU32 s.length) = s.length := by
    rw [decodeU32_encodeU32]
    omega
  rw [hd, recvBytes_exact s rest s.length rfl]

/-- Frame round-trip against an exactly consumed stream. -/
theorem recv_str_send_str_nil (s : List Byte) (h : s.length < 2 ^ 32) :
    recv_str (send_str s) = .ok (s, []) := by
  have := recv_str_send_str s [] h
  simpa using this

/-- Frame round-trip failure shape: when the string length is a multiple
of 2 to the 32, the truncated header decodes to 0 and the decoder returns
the empty string, leaving the whole body unread. -/
theorem recv_str_send_str_wrap (s : List Byte) (h : s.length % 2 ^ 32 = 0) :
    recv_str (send_str s) = .ok (([] : List Byte), s) := by
  rw [recv_str, send_str]
  rw [recvBytes_exact (encodeU32 s.length) s 4 rfl]
  dsimp only
  have hdec : decodeU32 (encodeU32 s.length) = 0 := by
    rw [decodeU32_encodeU32, h]
  rw [hdec, recvBytes, if_pos (Nat.zero_le _)]
  rw [List.take_zero, List.drop_zero]

/-- Main transfer lemma: the client receive loop, run with the true file
length as metadata and any starting offset `sent ≤ file.length`, consumes
the bytes the server chunk loop emits from that offset plus the sentinel
pair, delivers exactly the remaining file suffix, and leaves any trailing
stream content unread. -/
theorem clientRecvLoop_serverChunkLoop (file : List Byte) (sent : Nat)
    (h : sent ≤ file.length) (tail : List Byte) :
    clientRecvLoop file.length sent
        (serverChunkLoop file sent ++ (M0 :: M0 :: tail)) =
      .ok (file.drop sent, tail) := by
  rw [serverChunkLoop]
  by_cases hlt : sent < file.length
  · rw [if_pos hlt]
    have hM : ¬ (M1 = M0) := by decide
    have hlen : ((file.drop sent).take (min CHUNK (file.length - sent))).length
        = min CHUNK (file.length - sent) := by
      simp only [List.length_take, List.length_drop]
      omega
    simp only [List.cons_append, List.append_assoc]
    rw [clientRecvLoop]
    rw [if_neg hM, if_pos rfl]
    have hwle : min CHUNK (file.length - sent) ≤
        ((file.drop sent).take (min CHUNK (file.length - sent)) ++
          (serverChunkLoop file (sent + min CHUNK (file.length - sent)) ++
            (M0 :: M0 :: tail))).length := by
      simp only [List.length_append, hlen]
      omega
    rw [if_pos hwle]
    rw [List.drop_left' hlen, List.take_left' hlen]
    have ih := clientRecvLoop_serverChunkLoop file
      (sent + min CHUNK (file.length - sent)) (by omega) tail
    rw [ih]
    dsimp only
    have hdt : (file.drop sent).take (min CHUNK (file.length - sent)) ++
        file.drop (sent + min CHUNK (file.length - sent)) = file.drop sent := by
      have := List.take_append_drop (min CHUNK (file.length - sent))
        (file.drop sent)
      rw [List.drop_drop] at this
      exact this
    rw [hdt]
  · rw [if_neg hlt]
    simp only [List.nil_append]
    rw [clientRecvLoop]
    rw [if_pos rfl]
    rw [List.drop_eq_nil_of_le (by omega)]
    simp [recvBytes]
termination_by file.length - sent
decreasing_by
  simp only [CHUNK]
  omega

/-- Transfer lemma specialised to a whole stream, from offset 0. -/
theorem clientRecvLoop_serverStream (file : List Byte) :
    clientRecvLoop file.length 0 (serverStream file) = .ok (file, []) := by
  have := clientRecvLoop_serverChunkLoop file 0 (Nat.zero_le _) []
  simpa [serverStream] using this

/-- The flat chunk-loop output is exactly the marker-flattened chunk
list. -/
theorem serverChunkLoop_eq_markedStream (file : List Byte) (sent : Nat) :
    serverChunkLoop file sent = markedStream (serverChunks file sent) := by
  rw [serverChunkLoop, serverChunks]
  by_cases hlt : sent < file.length
  · rw [if_pos hlt, if_pos hlt]
    have ih := serverChunkLoop_eq_markedStream file
      (sent + min CHUNK (file.length - sent))
    rw [ih, markedStream]
  · rw [if_neg hlt, if_neg hlt, markedStream]
termination_by file.length - sent
decreasing_by
  simp only [CHUNK]
  omega

/-- Number of chunks the loop emits from offset `sent`: the remaining byte
count divided by 100, rounded up. -/
theorem serverChunks_length (file : List Byte) (sent : Nat) :
    (serverChunks file sent).length = (file.length - sent + 99) / 100 := by
  rw [serverChunks]
  by_cases hlt : sent < file.length
  · rw [if_pos hlt]
    have ih := serverChunks_length file (sent + min CHUNK (file.length - sent))
    simp only [List.length_cons, ih]
    simp only [CHUNK]
    omega
  · rw [if_neg hlt]
    simp only [List.length_nil]
    omega
termination_by file.length - sent
decreasing_by
  simp only [CHUNK]
  omega

/-- Size of the chunk emitted at loop iteration `i`, counted from offset
`sent`: the minimum of CHUNK and the bytes still unsent at that point. -/
theorem serverChunks_getElem_length (file : List Byte) (sent : Nat) :
    ∀ (i : Nat) (c : List Byte), (serverChunks file sent)[i]? = some c →
      c.length = min CHUNK (file.length - (sent + CHUNK * i)) := by
  intro i
  induction i generalizing sent with
  | zero =>
      intro c h
      rw [serverChunks] at h
      by_cases hlt : sent < file.length
      · rw [if_pos hlt] at h
        simp only [List.getElem?_cons_zero, Option.some.injEq] at h
        subst h
        simp only [List.length_take, List.length_drop, CHUNK]
        omega
      · rw [if_neg hlt] at h
        simp at h
  | succ i ih =>
      intro c h
      rw [serverChunks] at h
      by_cases hlt : sent < file.length
      · rw [if_pos hlt] at h
        simp only [List.getElem?_cons_succ] at h
        have hne : i < (serverChunks file
            (sent + min CHUNK (file.length - sent))).length := by
          rcases List.getElem?_eq_some.mp h with ⟨hl, _⟩
          exact hl
        rw [serverChunks_length] at hne
        have h100 : min CHUNK (file.length - sent) = CHUNK := by
          simp only [CHUNK] at *
          omega
        have hrec := ih (sent + min CHUNK (file.length - sent)) c h
        rw [hrec, h100]
        have harg : sent + CHUNK + CHUNK * i = sent + CHUNK * (i + 1) := by
          ring
        rw [harg]
      · rw [if_neg hlt] at h
        simp at h

/-- Total chunk payload emitted from offset `sent` is exactly the number
of file bytes not yet sent. -/
theorem serverChunks_sum (file : List Byte) (sent : Nat) :
    ((serverChunks file sent).map List.length).sum = file.length - sent := by
  rw [serverChunks]
  by_cases hlt : sent < file.length
  · rw [if_pos hlt]
    have ih := serverChunks_sum file (sent + min CHUNK (file.length - sent))
    simp only [List.map_cons, List.sum_cons, ih, List.length_take,
      List.length_drop]
    simp only [CHUNK]
    omega
  · rw [if_neg hlt]
    simp only [List.map_nil, List.sum_nil]
    omega
termination_by file.length - sent
decreasing_by
  simp only [CHUNK]
  omega

/-- When the running total has already reached the declared size, a
continuation marker makes the client read zero payload bytes and loop
straight to the next marker, whatever the rest of the stream holds. -/
theorem clientRecvLoop_skip (fs r : Nat) (h : fs ≤ r) (rest : List Byte) :
    clientRecvLoop fs r (M1 :: rest) = clientRecvLoop fs r rest := by
  have hw : min CHUNK (fs - r) = 0 := by
    simp only [CHUNK]
    omega
  rw [clientRecvLoop]
  rw [if_neg (by decide : ¬ (M1 = M0)), if_pos rfl, hw]
  rw [if_pos (Nat.zero_le _)]
  simp only [List.drop_zero, List.take_zero, Nat.add_zero, List.nil_append]
  cases hres : clientRecvLoop fs r rest with
  | ok p => cases p with
    | mk t l => rfl
  | error e => rfl

/-- Every chunk the server emits is non-empty: the loop writes a
continuation marker only while at least one unsent byte remains. -/
theorem serverChunks_ne_nil (file : List Byte) (sent : Nat) (c : List Byte)
    (hc : c ∈ serverChunks file sent) : c ≠ [] := by
  rw [serverChunks] at hc
  by_cases hlt : sent < file.length
  · rw [if_pos hlt] at hc
    rcases List.mem_cons.mp hc with hc | hc
    · subst hc
      have hlen : ((file.drop sent).take
          (min CHUNK (file.length - sent))).length ≠ 0 := by
        simp only [List.length_take, List.length_drop, CHUNK]
        omega
      intro hnil
      rw [hnil] at hlen
      exact hlen rfl
    · exact serverChunks_ne_nil file (sent + min CHUNK (file.length - sent)) c hc
  · rw [if_neg hlt] at hc
    simp at hc
termination_by file.length - sent
decreasing_by
  simp only [CHUNK]
  omega

/-- Concrete chunk list for a three-byte file, used by witnesses. -/
theorem serverChunks_three :
    serverChunks ([5, 6, 7] : List Byte) 0 = [[5, 6, 7]] := by
  rw [serverChunks]
  rw [serverChunks]
  simp [CHUNK]

/-- Concrete chunk list for a one-byte file, used by witnesses. -/
theorem serverChunks_one :
    serverChunks ([7] : List Byte) 0 = [[7]] := by
  rw [serverChunks]
  rw [serverChunks]
  simp [CHUNK]

/-- C1: for every payload, running the chunked send of the server against
the chunked receive of the client (with the declared size equal to the
payload length, as the metadata phase delivers it) reproduces the payload
bit-for-bit, consuming the whole stream including the sentinel. -/
theorem chunked_transfer_roundtrip (payload : List Byte) :
    clientRecvLoop payload.length 0 (serverStream payload) =
      .ok (payload, []) :=
  clientRecvLoop_serverStream payload

/-- C2: the total payload across all chunk segments before the sentinel
equals the declared file size (including size 0), and once the running
received total has reached the declared size the receiver requests no
further payload bytes on a continuation marker, regardless of the stream
content that follows. -/
theorem payload_total_invariant (file : List Byte) (fs r : Nat)
    (h : fs ≤ r) (rest : List Byte) :
    ((serverChunks file 0).map List.length).sum = file.length ∧
    clientRecvLoop fs r (M1 :: rest) = clientRecvLoop fs r rest := by
  constructor
  · have := serverChunks_sum file 0
    simpa using this
  · exact clientRecvLoop_skip fs r h rest

/-- Witness for C2 at a concrete instance. -/
theorem payload_total_invariant_witness :
    (2 : Nat) ≤ 3 ∧
    (((serverChunks [7] 0).map List.length).sum = List.length [7] ∧
      clientRecvLoop 2 3 (M1 :: [9]) = clientRecvLoop 2 3 [9]) :=
  ⟨by decide, payload_total_invariant [7] 2 3 (by decide) [9]⟩

/-- C3: the chunk emitted at iteration `i` has payload size
`min CHUNK (n - CHUNK * i)`, hence every chunk size is at most CHUNK, and
the final chunk has size `n mod CHUNK` except when `n` is a nonzero
multiple of CHUNK, in which case it has size CHUNK. -/
theorem chunk_sizes (file c : List Byte) (i : Nat)
    (h : (serverChunks file 0)[i]? = some c) :
    c.length = min CHUNK (file.length - CHUNK * i) ∧
    c.length ≤ CHUNK ∧
    (i + 1 = (serverChunks file 0).length →
      c.length = if file.length % CHUNK = 0 then CHUNK
        else file.length % CHUNK) := by
  have h1 := serverChunks_getElem_length file 0 i c h
  rw [Nat.zero_add] at h1
  have hlt : i < (serverChunks file 0).length := by
    rcases List.getElem?_eq_some.mp h with ⟨hl, _⟩
    exact hl
  have hcnt := serverChunks_length file 0
  refine ⟨h1, ?_, ?_⟩
  · rw [h1]
    exact Nat.min_le_left _ _
  · intro hlast
    rw [hcnt] at hlast hlt
    rw [h1]
    simp only [CHUNK] at hlast hlt ⊢
    by_cases hz : file.length % 100 = 0
    · rw [if_pos hz]
      omega
    · rw [if_neg hz]
      omega

/-- Witness for C3 at a concrete instance. -/
theorem chunk_sizes_witness :
    (serverChunks [5, 6, 7] 0)[0]? = some [5, 6, 7] ∧
    (List.length [5, 6, 7] = min CHUNK (List.length [5, 6, 7] - CHUNK * 0) ∧
     List.length [5, 6, 7] ≤ CHUNK ∧
     (0 + 1 = (serverChunks [5, 6, 7] 0).length →
       List.length [5, 6, 7] = if List.length [5, 6, 7] % CHUNK = 0 then CHUNK
         else List.length [5, 6, 7] % CHUNK)) :=
  ⟨by rw [serverChunks_three]; rfl,
   chunk_sizes [5, 6, 7] [5, 6, 7] 0 (by rw [serverChunks_three]; rfl)⟩

/-- C4: the termination sentinel of two M0 bytes follows the chunk stream
unconditionally for every file, and for the empty file the loop emits no
chunk at all, so the server sends exactly the two sentinel bytes. -/
theorem sentinel_unconditional :
    (∀ file : List Byte,
      serverStream file = markedStream (serverChunks file 0) ++ [M0, M0]) ∧
    serverStream [] = [M0, M0] ∧ serverChunks [] 0 = [] := by
  refine ⟨?_, ?_, ?_⟩
  · intro file
    rw [serverStream, serverChunkLoop_eq_markedStream]
  · rw [serverStream, serverChunkLoop]
    simp
  · rw [serverChunks]
    simp

/-- C9: if a continuation marker arrives when no bytes remain to receive,
the client computes a zero byte count to request, consumes no payload, and
loops to the next marker; and the sender never produces this case, since
every chunk it emits is non-empty. -/
theorem want_zero_defensive_guard :
    (∀ fs r : Nat, ∀ rest : List Byte, fs - r = 0 →
      min CHUNK (fs - r) = 0 ∧
      clientRecvLoop fs r (M1 :: rest) = clientRecvLoop fs r rest) ∧
    (∀ (file : List Byte) (sent : Nat) (c : List Byte),
      c ∈ serverChunks file sent → c ≠ []) := by
  constructor
  · intro fs r rest h
    refine ⟨by simp only [CHUNK]; omega, ?_⟩
    exact clientRecvLoop_skip fs r (by omega) rest
  · intro file sent c hc
    exact serverChunks_ne_nil file sent c hc

/-- Witness for C9 at a concrete instance. -/
theorem want_zero_defensive_guard_witness :
    ((2 : Nat) - 3 = 0 ∧
      (min CHUNK (2 - 3) = 0 ∧
        clientRecvLoop 2 3 (M1 :: [9]) = clientRecvLoop 2 3 [9])) ∧
    ([7] ∈ serverChunks [7] 0 ∧ ([7] : List Byte) ≠ []) :=
  ⟨⟨by decide, want_zero_defensive_guard.1 2 3 [9] (by decide)⟩,
   ⟨by rw [serverChunks_one]; exact List.mem_singleton.mpr rfl,
    want_zero_defensive_guard.2 [7] 0 [7]
      (by rw [serverChunks_one]; exact List.mem_singleton.mpr rfl)⟩⟩

/-- C10: after reading an M0 marker the client reads exactly one more byte
and terminates successfully whatever that byte is; the value of the second
sentinel byte is never validated. -/
theorem second_sentinel_byte_unchecked (fs r b : Nat) (rest : List Byte) :
    clientRecvLoop fs r (M0 :: b :: rest) = .ok ([], rest) := by
  rw [clientRecvLoop, if_pos rfl]
  simp [recvBytes]

/-- C5: the handshake is the strictly ordered four-step sequence.  The
server consumes exactly three frames from the client, in order, with no
validation of any of their contents: any client name, any second string,
and any ready string let it proceed and emit its metadata, which consists
of its identity frame, then the file name frame, then the 8-byte
big-endian size, in that order, followed by the chunk stream.  The client
in turn emits its identity frame, then the fixed query frame, then the
fixed ready frame, and parses the metadata frames of the server in that
same order. -/
theorem handshake_sequence (name q s server_name file_path file : List Byte)
    (hn : name.length < 2 ^ 32) (hq : q.length < 2 ^ 32)
    (hs : s.length < 2 ^ 32) (h1 : server_name.length < 2 ^ 32)
    (h2 : file_path.length < 2 ^ 32) (h3 : file.length < 2 ^ 64) :
    serverSession server_name file_path file
        (send_str name ++ send_str q ++ send_str s) =
      .ok ((name, q, s),
        send_str server_name ++ send_str file_path ++
          encodeU64 file.length ++ serverStream file) ∧
    clientSession name
        (send_str server_name ++ send_str file_path ++
          encodeU64 file.length ++ serverStream file) =
      (send_str name ++ send_str queryMsg ++ send_str startMsg,
        .ok (server_name, file_path, file.length, file)) := by
  constructor
  · rw [serverSession, List.append_assoc]
    rw [recv_str_send_str name _ hn]
    dsimp only
    rw [recv_str_send_str q _ hq]
    dsimp only
    rw [recv_str_send_str_nil s hs]
  · rw [clientSession]
    rw [List.append_assoc, List.append_assoc]
    rw [recv_str_send_str server_name _ h1]
    dsimp only
    rw [recv_str_send_str file_path _ h2]
    dsimp only
    rw [recvBytes_exact (encodeU64 file.length) (serverStream file) 8 rfl]
    dsimp only
    have hdec : decodeU64 (encodeU64 file.length) = file.length := by
      rw [decodeU64_encodeU64]
      omega
    rw [hdec, clientRecvLoop_serverStream]

/-- Witness for C5 at a concrete instance. -/
theorem handshake_sequence_witness :
    (List.length ([65] : List Byte) < 2 ^ 32 ∧
     List.length ([66] : List Byte) < 2 ^ 32 ∧
     List.length ([67] : List Byte) < 2 ^ 32 ∧
     List.length ([68] : List Byte) < 2 ^ 32 ∧
     List.length ([70] : List Byte) < 2 ^ 32 ∧
     List.length ([7] : List Byte) < 2 ^ 64) ∧
    (serverSession [68] [70] [7]
        (send_str [65] ++ send_str [66] ++ send_str [67]) =
      .ok (([65], [66], [67]),
        send_str [68] ++ send_str [70] ++
          encodeU64 (List.length [7]) ++ serverStream [7]) ∧
    clientSession [65]
        (send_str [68] ++ send_str [70] ++
          encodeU64 (List.length [7]) ++ serverStream [7]) =
      (send_str [65] ++ send_str queryMsg ++ send_str startMsg,
        .ok ([68], [70], List.length [7], [7]))) :=
  ⟨⟨by decide, by decide, by decide, by decide, by decide, by decide⟩,
   handshake_sequence [65] [66] [67] [68] [70] [7]
     (by decide) (by decide) (by decide) (by decide) (by decide) (by decide)⟩

/-- C6 counterexample: two distinct invalid marker bytes produce literally
the same error outcome, so the error report does not identify the
offending byte value; the source (client.cpp lines 177-180) prints the
fixed message "[client] protocol error" whatever the byte was. -/
theorem protocol_error_report_counterexample :
    clientRecvLoop 5 0 [65] = .error .protocolError ∧
    clientRecvLoop 5 0 [66] = .error .protocolError ∧
    (65 : Byte) ≠ 66 := by
  refine ⟨?_, ?_, by decide⟩
  · rw [clientRecvLoop]
    rw [if_neg (by decide : ¬ ((65 : Byte) = M0)),
      if_neg (by decide : ¬ ((65 : Byte) = M1))]
  · rw [clientRecvLoop]
    rw [if_neg (by decide : ¬ ((66 : Byte) = M0)),
      if_neg (by decide : ¬ ((66 : Byte) = M1))]

/-- C6 (amended): any marker byte outside M0 and M1, read where a marker
is expected, makes the receiving session fail immediately and
deterministically, with no payload bytes consumed for that chunk; the
error outcome is the fixed protocol-error report, which does not carry the
offending byte value. -/
theorem protocol_violation_fatal (fs r b : Nat) (rest : List Byte)
    (h0 : b ≠ M0) (h1 : b ≠ M1) :
    clientRecvLoop fs r (b :: rest) = .error .protocolError := by
  rw [clientRecvLoop, if_neg h0, if_neg h1]

/-- Witness for the amended C6 at a concrete instance. -/
theorem protocol_violation_fatal_witness :
    ((65 : Nat) ≠ M0 ∧ (65 : Nat) ≠ M1) ∧
    clientRecvLoop 5 0 (65 :: [1, 2]) = .error .protocolError :=
  ⟨⟨by decide, by decide⟩,
   protocol_violation_fatal 5 0 65 [1, 2] (by decide) (by decide)⟩

/-- Auxiliary to C7: whenever the recv_exact loop reports completion, the
number of bytes read equals exactly the number requested. -/
theorem recv_exact_done (evs : List RecvEvent) :
    ∀ (len got : Nat) (rest : List RecvEvent),
      recv_exact len evs = .done got rest → got = len := by
  induction evs with
  | nil =>
      intro len got rest h
      match len with
      | 0 =>
          rw [recv_exact] at h
          cases h
          rfl
      | n + 1 =>
          rw [recv_exact] at h
          cases h
  | cons ev evs ih =>
      intro len got rest h
      match len with
      | 0 =>
          rw [recv_exact] at h
          cases h
          rfl
      | len + 1 =>
          cases ev with
          | ok avail =>
              rw [recv_exact] at h
              cases hrec : recv_exact (len + 1 - min (avail + 1) (len + 1)) evs with
              | done g r =>
                  rw [hrec] at h
                  cases h
                  have hg := ih _ _ _ hrec
                  omega
              | peerClosed =>
                  rw [hrec] at h
                  cases h
              | fatal e =>
                  rw [hrec] at h
                  cases h
              | blocked =>
                  rw [hrec] at h
                  cases h
          | eof =>
              rw [recv_exact] at h
              cases h
          | eintr =>
              rw [recv_exact] at h
              exact ih _ _ _ h
          | fail e =>
              rw [recv_exact] at h
              cases h

/-- C7: the recv_exact loop returns only once exactly the requested byte
count has been read; end-of-stream with bytes still outstanding yields the
peer-closed condition, which is distinct from every fatal transport
error; an EINTR call result is transparently retried; and any other call
error aborts fatally at once, with no retry whatever the schedule still
holds. -/
theorem recv_exact_contract :
    (∀ (evs : List RecvEvent) (len got : Nat) (rest : List RecvEvent),
      recv_exact len evs = .done got rest → got = len) ∧
    (∀ (len : Nat) (evs : List RecvEvent),
      recv_exact (len + 1) (.eof :: evs) = .peerClosed) ∧
    (∀ e : Nat, RecvResult.peerClosed ≠ RecvResult.fatal e) ∧
    (∀ (len : Nat) (evs : List RecvEvent),
      recv_exact (len + 1) (.eintr :: evs) = recv_exact (len + 1) evs) ∧
    (∀ (len e : Nat) (evs : List RecvEvent),
      recv_exact (len + 1) (.fail e :: evs) = .fatal e) := by
  refine ⟨recv_exact_done, ?_, ?_, ?_, ?_⟩
  · intro len evs
    rw [recv_exact]
  · intro e h
    cases h
  · intro len evs
    rw [recv_exact]
  · intro len e evs
    rw [recv_exact]

/-- Witness for C7 at a concrete instance. -/
theorem recv_exact_contract_witness :
    recv_exact 2 [RecvEvent.ok 4] = RecvResult.done 2 [] ∧ (2 : Nat) = 2 :=
  ⟨by decide, recv_exact_contract.1 [RecvEvent.ok 4] 2 2 [] (by decide)⟩

/-- C8 counterexample: a string of length exactly 2 to the 32 does not
round-trip through the frame codec.  The uint32 cast in send_str truncates
the length header to 0, so the decoder reads a zero-length body and
returns the empty string with the whole payload left unread. -/
theorem string_frame_overflow_counterexample :
    recv_str (send_str (List.replicate (2 ^ 32) 0)) =
      .ok (([] : List Byte), List.replicate (2 ^ 32) 0) ∧
    (([] : List Byte) ≠ List.replicate (2 ^ 32) (0 : Byte)) := by
  constructor
  · exact recv_str_send_str_wrap (List.replicate (2 ^ 32) 0)
      (by rw [List.length_replicate]; exact Nat.mod_self _)
  · intro hcontra
    have hlen := congrArg List.length hcontra
    rw [List.length_replicate, List.length_nil] at hlen
    norm_num at hlen

/-- C8 (amended): for every string of length below 2 to the 32 (including
the empty string), decoding the frame produced by send_str, against any
continuation of the stream, returns exactly that string: the decoder reads
the 4-byte big-endian length and then that many bytes, and a length-0
frame yields the empty string rather than an error. -/
theorem string_frame_roundtrip (s rest : List Byte) (h : s.length < 2 ^ 32) :
    recv_str (send_str s ++ rest) = .ok (s, rest) :=
  recv_str_send_str s rest h

/-- Witness for the amended C8 at the empty string. -/
theorem string_frame_roundtrip_witness :
    List.length ([] : List Byte) < 2 ^ 32 ∧
    recv_str (send_str ([] : List Byte) ++ []) = .ok (([] : List Byte), []) :=
  ⟨by decide, string_frame_roundtrip [] [] (by decide)⟩
